import Mathlib

/-!
Shallow embedding of the `mylib` utility library (files `mylib/path.py` and
`mylib/io.py`) and proofs about it.

Conventions used throughout:
* a path is modelled either as its raw string (for the parsing-sensitive
  `fix_path`) or as its list of components `PathC := List String`
  (for the filesystem-state functions);
* the on-disk filesystem is an explicit value (`FS`, a list of existing
  entries tagged with an is-directory bit) threaded through the stateful
  helpers;
* console input is an explicit list of the lines (or parsed integers) the
  user types; the retry loops of the source become structural recursion
  over that list;
* the unbounded `while True` loops of the source (`create_temp_path`,
  `avoid_overwrite`) take an explicit fuel parameter and return `Option`.
-/

set_option autoImplicit false

namespace Mylib

/-! ## Basic string helpers (kernel-friendly stand-ins for Python str ops) -/

/-- Python `str.lower` (ASCII part, which is all the library compares). -/
def lowerStr (s : String) : String := String.mk (s.toList.map Char.toLower)

/-- Whether the first list is an initial run of the second. -/
def leadRun {α : Type} [BEq α] : List α → List α → Bool
  | [], _ => true
  | _ :: _, [] => false
  | a :: as, b :: bs => a == b && leadRun as bs

/-- Python `comp[0]` as an option (source never applies it to `""`). -/
def headOf (s : String) : Option Char := s.toList.head?

/-- Python `comp[1:]`. -/
def dropFirst (s : String) : String := String.mk (s.toList.drop 1)

/-- Python `comp[-1]` as an option. -/
def lastOf (s : String) : Option Char := s.toList.getLast?

/-- Python `comp[:-1]`. -/
def dropLastChar (s : String) : String := String.mk (s.toList.dropLast)

/-! ## `fix_path` (mylib/path.py lines 44-113)

The function works on `path.parts`; each of its list comprehensions becomes
one pass over the component list below. -/

/-- Platform flavour of the path object (`isinstance(path, PosixPath)` vs
`isinstance(path, WindowsPath)` in the source). -/
inductive Flavor where
  | posix
  | windows

/-- Source lines 65-70, translated verbatim: a list comprehension whose
`if comp[0]=='.' and not comp in ('.', '..')` clause is a FILTER, so the
pass keeps only the components that start with `'.'` (and are not the
special `.`/`..`), replacing their leading period with `new_char`; every
other component is dropped. -/
def fixPrePeriod (nc : String) (comps : List String) : List String :=
  (comps.filter
    (fun comp => headOf comp == some '.' && !(comp == "." || comp == ".."))).map
    (fun comp => nc ++ dropFirst comp)

/-- Source lines 73-77: `comp.replace(':', new_char)` on a POSIX machine. -/
def replaceColon (nc : String) (s : String) : String :=
  String.mk (s.toList.flatMap (fun c => if c == ':' then nc.toList else [c]))

/-- The character class of source line 84: `[\:\*\?"\<\>\|\n\r\t\v]`. -/
def winBad (c : Char) : Bool :=
  c == ':' || c == '*' || c == '?' || c == '"' || c == '<' || c == '>' ||
  c == '|' || c == '\n' || c == '\r' || c == '\t' || c == '\x0b'

/-- `re.sub(r'[\:\*\?"\<\>\|\n\r\t\v]', new_char, comp)`: every character of
the class is replaced by the (possibly multi-character) `new_char`. -/
def subBad (nc : String) (s : String) : String :=
  String.mk (s.toList.flatMap (fun c => if winBad c then nc.toList else [c]))

/-- `re.compile(r'[a-zA-Z]\:\\').fullmatch(comp)` (source line 85): exactly a
letter, a colon and a backslash. -/
def isDrive (s : String) : Bool :=
  match s.toList with
  | [a, b, c] => a.isAlpha && b == ':' && c == '\\'
  | _ => false

/-- Source lines 83-88: replace the bad characters in every component except
a first component that matches the drive pattern. -/
def fixWinChars (nc : String) (comps : List String) : List String :=
  comps.enum.map (fun p => if p.1 == 0 && isDrive p.2 then p.2 else subBad nc p.2)

/-- Source lines 90-95: a trailing period (on a non-special component) is
replaced by `new_char`. -/
def fixTrailDot (nc : String) (comps : List String) : List String :=
  comps.map (fun comp =>
    if lastOf comp == some '.' && !(comp == "." || comp == "..") then
      dropLastChar comp ++ nc
    else comp)

def digitAfter : List Char → Bool
  | d :: _ => d.isDigit
  | [] => false

/-- The reserved-name alternation `(aux|con|nul|prn|com\d|lpt\d)` of source
lines 99/105 (with `re.IGNORECASE`): when the component starts with a
reserved name, returns the matched original-case head and the rest. -/
def resSplit (s : String) : Option (String × String) :=
  let l := s.toList.map Char.toLower
  if leadRun "aux".toList l || leadRun "con".toList l ||
     leadRun "nul".toList l || leadRun "prn".toList l then
    some (String.mk (s.toList.take 3), String.mk (s.toList.drop 3))
  else if (leadRun "com".toList l || leadRun "lpt".toList l) &&
      digitAfter (l.drop 3) then
    some (String.mk (s.toList.take 4), String.mk (s.toList.drop 4))
  else none

/-- The tail `(\..+)?` of the fullmatch on source line 105: empty, or a
period followed by at least one character, none of which is a newline
(Python `.` does not match `\n`). -/
def extOk (rest : String) : Bool :=
  match rest.toList with
  | [] => true
  | '.' :: t => !t.isEmpty && t.all (fun c => !(c == '\n'))
  | _ => false

/-- Source lines 97-111: when the component fullmatches
`(aux|con|nul|prn|com\d|lpt\d)(\..+)?` case-insensitively, `new_char` is
inserted right after the reserved-name head (`re.sub` with `\1`). -/
def fixReserved (nc : String) (comps : List String) : List String :=
  comps.map (fun comp =>
    match resSplit comp with
    | some pr => if extOk pr.2 then pr.1 ++ nc ++ pr.2 else comp
    | none => comp)

/-- The component pipeline of `fix_path`: the `pre_period` pass (lines
65-70) followed by the flavour-specific passes (lines 73-77 for POSIX,
80-111 for Windows). -/
def fixComps (fl : Flavor) (pre_period : Bool) (nc : String)
    (comps : List String) : List String :=
  let c1 := if pre_period then comps else fixPrePeriod nc comps
  match fl with
  | .posix => c1.map (replaceColon nc)
  | .windows => fixReserved nc (fixTrailDot nc (fixWinChars nc c1))

/-! ### POSIX path parsing and recombination

`fix_path` receives a `Path` (so `path.parts`) and returns
`Path(*comps)`.  For `PosixPath`, `parts` splits on `/`, discards empty
and `.` segments and keeps a leading `/` as a root component; `Path(*comps)`
joins the components back with `/` (the empty component list denotes the
path `.`). -/

def splitSlashAux (cur : List Char) : List Char → List (List Char)
  | [] => [cur.reverse]
  | c :: cs =>
    if c == '/' then cur.reverse :: splitSlashAux [] cs
    else splitSlashAux (c :: cur) cs

/-- `PurePosixPath(s).parts` for the paths the claims exercise. -/
def posixParts (s : String) : List String :=
  let comps := ((splitSlashAux [] s.toList).map String.mk).filter
    (fun c => !(c == "" || c == "."))
  if leadRun ['/'] s.toList then "/" :: comps else comps

def joinSlash : List String → String
  | [] => ""
  | [c] => c
  | c :: cs => c ++ "/" ++ joinSlash cs

/-- `str(Path(*comps))` for a POSIX flavour path. -/
def joinComps : List String → String
  | [] => "."
  | "/" :: rest => "/" ++ joinSlash rest
  | comps => joinSlash comps

/-- `fix_path(path, pre_period, new_char)` on a POSIX machine (the
`isinstance(path, PosixPath)` branch of the source), as a map from the
path's string to the returned path's string. -/
def fix_path (s : String) (pre_period : Bool) (nc : String) : String :=
  joinComps (fixComps .posix pre_period nc (posixParts s))

/-! ## Filesystem model for the stateful helpers of `mylib/path.py`

A path is its list of components, the filesystem is the explicit list of
existing entries, each tagged with whether it is a directory.  The
`pathlib`/`shutil` primitives the source calls become the small state
transformers below. -/

/-- A filesystem path as its list of components. -/
abbrev PathC := List String

/-- The filesystem: the existing entries, each with an is-directory bit. -/
structure FS where
  entries : List (PathC × Bool)
deriving DecidableEq

/-- `path.exists()`. -/
def FS.existsP (fs : FS) (p : PathC) : Bool := fs.entries.any (fun e => e.1 == p)

/-- `path.is_dir()`. -/
def FS.isDirP (fs : FS) (p : PathC) : Bool :=
  fs.entries.any (fun e => e.1 == p && e.2)

/-- All nonempty initial segments of a path, the path itself included. -/
def initsNE : PathC → List PathC
  | [] => []
  | c :: cs => [c] :: (initsNE cs).map (fun q => c :: q)

/-- All nonempty strict initial segments of a path (its ancestors). -/
def properInits : PathC → List PathC
  | [] => []
  | _ :: [] => []
  | c :: cs => [c] :: (properInits cs).map (fun q => c :: q)

/-- Whether `q` is a strict ancestor-or-itself position above `x`: `q` is a
proper initial segment of `x` (so `x` lies strictly inside the directory
`q`). -/
def strictUnder (q x : PathC) : Bool :=
  leadRun q x && decide (q.length < x.length)

/-- A directory that exists and has no entry strictly inside it. -/
def FS.emptyDir (fs : FS) (p : PathC) : Bool :=
  fs.isDirP p && fs.entries.all (fun e => !strictUnder p e.1)

/-- `path.mkdir(parents=True)`: create the missing ancestors and the path
itself, all as directories. -/
def FS.mkdirP (fs : FS) (p : PathC) : FS :=
  ⟨((initsNE p).filter (fun q => !fs.existsP q)).map (fun q => (q, true))
    ++ fs.entries⟩

/-- `path.mkdir()` without parents (call sites guarantee the parent exists
and the path does not). -/
def FS.mkdir1 (fs : FS) (p : PathC) : FS := ⟨(p, true) :: fs.entries⟩

/-- `shutil.rmtree(path)`: remove the path and everything inside it. -/
def FS.rmtree (fs : FS) (p : PathC) : FS :=
  ⟨fs.entries.filter (fun e => !(e.1 == p || strictUnder p e.1))⟩

/-- `path.unlink()`: remove the (non-directory) entry at the path. -/
def FS.unlink (fs : FS) (p : PathC) : FS :=
  ⟨fs.entries.filter (fun e => !(e.1 == p))⟩

/-- Well-formedness of a filesystem: every ancestor of an existing entry
exists and is a directory (true of any real filesystem; the claims assume
the absence of external interference). -/
def FS.wfb (fs : FS) : Bool :=
  fs.entries.all (fun e => (properInits e.1).all (fun q => fs.isDirP q))

/-- `Path(f'{stem}{ext}')` for a stem path: the extension string is glued
onto the last component. -/
def addExt (p : PathC) (ext : String) : PathC :=
  p.dropLast ++ [p.getLastD "" ++ ext]

/-- `create_temp_path` (mylib/path.py lines 8-20).  `TemporaryFile()` is
modelled as the abstract stream `stems` of OS-generated unique temp-area
stem paths (the source opens and closes the handle only to obtain `f.name`);
the `while True` loop takes fuel and walks the stream: it returns the first
`stem + ext` that does not exist, and never modifies the filesystem. -/
def create_temp_path (fs : FS) (stems : Nat → PathC) (ext : String) :
    Nat → Nat → Option PathC
  | 0, _ => none
  | fuel+1, k =>
    let p := addExt (stems k) ext
    if fs.existsP p then create_temp_path fs stems ext fuel (k+1) else some p

/-- `mkdir_empty` (mylib/path.py lines 22-42).  Lines 33-36 construct a
`FileExistsError` without raising it, so `exist_ok` has no effect on the
state; the translation keeps the parameter to mirror the signature. -/
def mkdir_empty (fs : FS) (p : PathC) (exist_ok : Bool) : FS :=
  let fs1 := if fs.existsP p then fs else fs.mkdirP p
  let fs2 := if fs1.isDirP p then fs1.rmtree p else fs1.unlink p
  fs2.mkdirP p

/-- Index of the last `.` in a name (Python `name.rfind('.')`). -/
def lastDotIdx : List Char → Option Nat
  | [] => none
  | c :: cs =>
    match lastDotIdx cs with
    | some i => some (i+1)
    | none => if c == '.' then some 0 else none

/-- `PurePath.suffix`: the part of the name from its last dot on, provided
that dot is neither leading nor trailing. -/
def pySuffix (name : String) : String :=
  match lastDotIdx name.toList with
  | some i =>
    if 0 < i ∧ i < name.toList.length - 1 then String.mk (name.toList.drop i)
    else ""
  | none => ""

/-- `PurePath.stem`: the name with its suffix removed. -/
def pyStem (name : String) : String :=
  String.mk (name.toList.take (name.toList.length - (pySuffix name).toList.length))

/-- `path.name`. -/
def nameOf (p : PathC) : String := p.getLastD ""

/-- `path.with_name(nm)`. -/
def withName (p : PathC) (nm : String) : PathC := p.dropLast ++ [nm]

/-- The candidate name built on mylib/path.py lines 127-129:
`f'{path.name} ({n})'` when `is_dir`, else `with_stem(f'{path.stem} ({n})')`
(the suffix is preserved). -/
def candName (is_dir : Bool) (name : String) (n : Nat) : String :=
  if is_dir then name ++ " (" ++ toString n ++ ")"
  else pyStem name ++ " (" ++ toString n ++ ")" ++ pySuffix name

/-- The `while True` loop of `avoid_overwrite` (lines 126-131), with fuel. -/
def avoidLoop (fs : FS) (p : PathC) (is_dir : Bool) : Nat → Nat → Option PathC
  | 0, _ => none
  | fuel+1, n =>
    let np := withName p (candName is_dir (nameOf p) n)
    if fs.existsP np then avoidLoop fs p is_dir fuel (n+1) else some np

/-- `avoid_overwrite` (mylib/path.py lines 115-131): pure — it only reads
the filesystem. -/
def avoid_overwrite (fs : FS) (p : PathC) (is_dir : Bool) (fuel : Nat) :
    Option PathC :=
  if fs.existsP p then avoidLoop fs p is_dir fuel 1 else some p

/-- `TempDirPath.__new__` (lines 153-157): obtain a fresh temp path with
empty extension, then `temp_path.mkdir()`.  Returns the path the value is
bound to and the filesystem after creation. -/
def tempDirNew (fs : FS) (stems : Nat → PathC) (fuel : Nat) :
    Option (PathC × FS) :=
  match create_temp_path fs stems "" fuel 0 with
  | some p => some (p, fs.mkdir1 p)
  | none => none

/-- `TempDirPath.empty` (lines 171-175): `rmtree` then `mkdir`. -/
def tempDirEmpty (fs : FS) (p : PathC) : FS := (fs.rmtree p).mkdir1 p

/-- `TempDirPath.__del__` (lines 177-178): `rmtree` with
`ignore_errors=True` — when deletion fails (`ok = false`) the state is left
unchanged and no error is raised (the function is total). -/
def tempDirDel (ok : Bool) (fs : FS) (p : PathC) : FS :=
  if ok then fs.rmtree p else fs

/-! ## Console helpers and `Outputter` of `mylib/io.py`

Console reads become an explicit list of the lines the user types (for
`num_input`, of the `int(...)` parse results: `none` is a line whose parse
raises, which the `except: pass` swallows). -/

/-- One iteration of the `yes_no_input` loop (io.py lines 17-22): lowercase
the line, answer on the two membership tests, `none` means re-prompt. -/
def yes_no_step (line : String) : Option Bool :=
  let choice := lowerStr line
  if choice = "y" ∨ choice = "ye" ∨ choice = "yes" then some true
  else if choice = "n" ∨ choice = "no" then some false
  else none

/-- `yes_no_input` over the list of typed lines: first decidable line wins,
an exhausted list models a user who never answers. -/
def yes_no_input : List String → Option Bool
  | [] => none
  | l :: ls =>
    match yes_no_step l with
    | some b => some b
    | none => yes_no_input ls

/-- The prompt suffix printed on io.py line 18 (`f"{message} ([y]/N): "`). -/
def yes_no_hint : String := " ([y]/N): "

/-- Python `list(range(start, stop))` over integers (io.py line 37). -/
def intRange (start stop : Int) : List Int :=
  (List.range (stop - start).toNat).map (fun i => start + Int.ofNat i)

/-- `num_input` (io.py lines 24-45) over the list of parse results: return
the first parsed integer lying in `nums = range(start, stop)`; unparseable
or out-of-range lines silently re-prompt. -/
def num_input (start stop : Int) : List (Option Int) → Option Int
  | [] => none
  | c :: rest =>
    match c with
    | some num =>
      if (intRange start stop).contains num then some num
      else num_input start stop rest
    | none => num_input start stop rest

/-- The error raised on io.py line 68 (message quotes elided). -/
inductive PyError where
  | typeError (msg : String)
deriving DecidableEq

/-- The runtime type of the `options` argument of `num_input2`: a list, a
dict (an insertion-ordered association list), or anything else. -/
inductive Options (α κ β : Type) where
  | list (l : List α)
  | dict (d : List (κ × β))
  | other

def typeErrMsg : String := "argument options must be list or dict."

/-- `num_input2` (io.py lines 47-80).  The type dispatch happens before any
input is read; `keys` is `range(len(options))` for a list and
`list(options.keys())` for a dict; the result is `options[idx]` (the list
element) or `keys[idx]` (the dict KEY, not the value).  The menu text built
on lines 70-72 is display-only and not part of the state. -/
def num_input2 {α κ β : Type} (inputs : List (Option Int))
    (options : Options α κ β) : Except PyError (Option (α ⊕ κ)) :=
  match options with
  | .list l =>
    .ok ((num_input 0 (Int.ofNat l.length) inputs).bind
      (fun n => (l.get? n.toNat).map Sum.inl))
  | .dict d =>
    .ok ((num_input 0 (Int.ofNat d.length) inputs).bind
      (fun n => ((d.map Prod.fst).get? n.toNat).map Sum.inr))
  | .other => .error (.typeError typeErrMsg)

/-- The text files of the system: path to content. -/
structure TextFS where
  files : List (String × String)
deriving DecidableEq

/-- Content of the file at a path, when it exists. -/
def TextFS.read? (fs : TextFS) (p : String) : Option String :=
  (fs.files.find? (fun e => e.1 == p)).map (fun e => e.2)

/-- Overwrite (or create) the file at a path with the given content. -/
def TextFS.write (fs : TextFS) (p : String) (c : String) : TextFS :=
  ⟨(p, c) :: fs.files.filter (fun e => !(e.1 == p))⟩

/-- The `Outputter` value: it only stores the destination path (io.py line
139; the encoding does not affect the modelled content). -/
structure Outputter where
  txt_path : String

/-- `Outputter.__init__` (io.py lines 132-142): `open(..., 'w')` truncates
the file, then `f.write('')` appends nothing. -/
def outputterInit (fs : TextFS) (p : String) : Outputter × TextFS :=
  (⟨p⟩, fs.write p "")

/-- `Outputter.output` (io.py lines 144-155): `open(..., 'a')` then append
`msg` to the current content (an absent file counts as empty). -/
def Outputter.output (o : Outputter) (fs : TextFS) (msg : String) : TextFS :=
  fs.write o.txt_path ((fs.read? o.txt_path).getD "" ++ msg)

/-- Run a sequence of `output` calls in order. -/
def runOutputs (o : Outputter) (fs : TextFS) : List String → TextFS
  | [] => fs
  | m :: ms => runOutputs o (o.output fs m) ms

/-- Concatenation of a list of strings in order. -/
def strConcat : List String → String
  | [] => ""
  | s :: ss => s ++ strConcat ss

end Mylib

namespace Mylib

/-! ## Claim theorems about `fix_path` -/

/-- Claim C1: the claim says `fix_path` with `pre_period=False` replaces the
leading period of dotted components, leaves the other components (and `.`,
`..`) unchanged and preserves the number and order of components.  The code
does not: the comprehension on lines 66-70 filters, so the component `foo`
is dropped from `foo/.bar` (result `_bar`, one component instead of two),
a lone `..` is dropped entirely (result `.`), and the same happens under
the Windows flavour. -/
theorem fix_path_pre_period_drops :
    fix_path "foo/.bar" false "_" = "_bar" ∧
    fix_path ".." false "_" = "." ∧
    fixComps .windows false "_" ["foo", ".bar"] = ["_bar"] := by
  refine ⟨by decide, by decide, by decide⟩

/-- Claim C2: the claim says `fix_path` is idempotent for every path, flag
and replacement character.  It is not: with `pre_period=False` the first
application turns `.foo` into `_foo`, and the second application drops the
(no longer dotted) component, yielding `.`. -/
theorem fix_path_not_idempotent :
    fix_path (fix_path ".foo" false "_") false "_" ≠ fix_path ".foo" false "_" := by
  decide

/-- Claim C8: on a Windows-flavour path with `pre_period=True` and
replacement `_`, the component `con.txt` becomes `con_.txt` (replacement
inserted after the case-insensitively matched reserved head) and the
non-drive component `a:b*c` has both `:` and `*` replaced. -/
theorem fix_path_windows_examples :
    fixComps .windows true "_" ["dir", "a:b*c", "con.txt"]
      = ["dir", "a_b_c", "con_.txt"] := by
  decide

/-! ## Helper lemmas about the filesystem model -/

theorem initsNE_length_le {q p : PathC} (h : q ∈ initsNE p) :
    q.length ≤ p.length := by
  induction p generalizing q with
  | nil => simp [initsNE] at h
  | cons c cs ih =>
    simp only [initsNE, List.mem_cons, List.mem_map] at h
    rcases h with rfl | ⟨r, hr, rfl⟩
    · simp
    · simpa using ih hr

theorem self_mem_initsNE {p : PathC} (hp : p ≠ []) : p ∈ initsNE p := by
  induction p with
  | nil => exact absurd rfl hp
  | cons c cs ih =>
    cases cs with
    | nil => simp [initsNE]
    | cons d ds =>
      show c :: d :: ds ∈ [c] :: (initsNE (d :: ds)).map (fun q => c :: q)
      exact List.mem_cons.mpr
        (Or.inr (List.mem_map.mpr ⟨d :: ds, ih (by simp), rfl⟩))

theorem strictUnder_initsNE_false {q p : PathC} (h : q ∈ initsNE p) :
    strictUnder p q = false := by
  have hlen := initsNE_length_le h
  have hnot : ¬ p.length < q.length := by omega
  simp [strictUnder, hnot]

theorem strictUnder_self_false (p : PathC) : strictUnder p p = false := by
  simp [strictUnder]

theorem mem_properInits_of_strictUnder {q x : PathC}
    (h : strictUnder q x = true) (hq : q ≠ []) : q ∈ properInits x := by
  induction x generalizing q with
  | nil =>
    cases q with
    | nil => exact absurd rfl hq
    | cons a as => simp [strictUnder, leadRun] at h
  | cons b bs ih =>
    cases q with
    | nil => exact absurd rfl hq
    | cons a as =>
      simp only [strictUnder, leadRun, Bool.and_eq_true, beq_iff_eq,
        decide_eq_true_eq, List.length_cons] at h
      obtain ⟨⟨rfl, hlead⟩, hlen⟩ := h
      have hlen' : as.length < bs.length := by omega
      cases bs with
      | nil => simp at hlen'
      | cons d ds =>
        cases as with
        | nil => simp [properInits]
        | cons e es =>
          have h' : strictUnder (e :: es) (d :: ds) = true := by
            simp only [strictUnder, Bool.and_eq_true, decide_eq_true_eq]
            exact ⟨hlead, hlen'⟩
          simp only [properInits, List.mem_cons, List.mem_map]
          exact Or.inr ⟨e :: es, ih h' (by simp), rfl⟩

theorem existsP_of_isDirP {fs : FS} {p : PathC} (h : fs.isDirP p = true) :
    fs.existsP p = true := by
  simp only [FS.isDirP, List.any_eq_true, Bool.and_eq_true, beq_iff_eq] at h
  obtain ⟨e, he, h1, _⟩ := h
  exact List.any_eq_true.mpr ⟨e, he, by simp [h1]⟩

theorem isDirP_false_of_not_exists {fs : FS} {p : PathC}
    (h : fs.existsP p = false) : fs.isDirP p = false := by
  cases hd : fs.isDirP p with
  | false => rfl
  | true => rw [existsP_of_isDirP hd] at h; cases h

theorem no_under_of_not_dir {fs : FS} {p : PathC} (hwf : fs.wfb = true)
    (hdir : fs.isDirP p = false) (hp : p ≠ []) :
    ∀ e ∈ fs.entries, strictUnder p e.1 = false := by
  intro e he
  cases hSU : strictUnder p e.1 with
  | false => rfl
  | true =>
    have hmem := mem_properInits_of_strictUnder hSU hp
    simp only [FS.wfb] at hwf
    have h1 := List.all_eq_true.mp hwf e he
    have h2 := List.all_eq_true.mp h1 p hmem
    rw [hdir] at h2
    cases h2

theorem isDirP_mkdirP_self {fs : FS} {p : PathC} (hp : p ≠ [])
    (hex : fs.existsP p = false) : (fs.mkdirP p).isDirP p = true := by
  have hmem : p ∈ (initsNE p).filter (fun q => !fs.existsP q) :=
    List.mem_filter.mpr ⟨self_mem_initsNE hp, by simp [hex]⟩
  simp only [FS.mkdirP, FS.isDirP]
  exact List.any_eq_true.mpr
    ⟨(p, true), List.mem_append_left _ (List.mem_map.mpr ⟨p, hmem, rfl⟩), by simp⟩

theorem emptyDir_mkdirP {fs : FS} {p : PathC} (hp : p ≠ [])
    (hex : fs.existsP p = false)
    (hnone : ∀ e ∈ fs.entries, strictUnder p e.1 = false) :
    (fs.mkdirP p).emptyDir p = true := by
  simp only [FS.emptyDir, Bool.and_eq_true]
  refine ⟨isDirP_mkdirP_self hp hex, ?_⟩
  refine List.all_eq_true.mpr ?_
  intro e he
  simp only [FS.mkdirP] at he
  rcases List.mem_append.mp he with hnew | hold
  · rcases List.mem_map.mp hnew with ⟨q, hq, rfl⟩
    have hq' := List.mem_filter.mp hq
    simp [strictUnder_initsNE_false hq'.1]
  · simp [hnone e hold]

theorem existsP_rmtree_self (fs : FS) (p : PathC) :
    (fs.rmtree p).existsP p = false := by
  simp only [FS.rmtree, FS.existsP]
  rw [List.any_eq_false]
  intro e he
  have h := (List.mem_filter.mp he).2
  simp only [Bool.not_eq_true', Bool.or_eq_false_iff] at h
  simp [h.1]

theorem rmtree_no_under (fs : FS) (p : PathC) :
    ∀ e ∈ (fs.rmtree p).entries, strictUnder p e.1 = false := by
  intro e he
  have h := (List.mem_filter.mp he).2
  simp only [Bool.not_eq_true', Bool.or_eq_false_iff] at h
  exact h.2

theorem existsP_unlink_self (fs : FS) (p : PathC) :
    (fs.unlink p).existsP p = false := by
  simp only [FS.unlink, FS.existsP]
  rw [List.any_eq_false]
  intro e he
  have h := (List.mem_filter.mp he).2
  simp only [Bool.not_eq_true'] at h
  simp [h]

theorem addExt_ne_nil (p : PathC) (ext : String) : addExt p ext ≠ [] := by
  simp [addExt]

/-- Soundness of the `create_temp_path` retry loop: a returned path is the
first non-existing `stem + ext` along the stem stream, and the filesystem
is only read. -/
theorem ctpLoopSound (fs : FS) (stems : Nat → PathC) (ext : String) :
    ∀ fuel k p, create_temp_path fs stems ext fuel k = some p →
      fs.existsP p = false ∧ ∃ j, k ≤ j ∧ p = addExt (stems j) ext ∧
        ∀ m, k ≤ m → m < j → fs.existsP (addExt (stems m) ext) = true := by
  intro fuel
  induction fuel with
  | zero => intro k p h; simp [create_temp_path] at h
  | succ n ih =>
    intro k p h
    simp only [create_temp_path] at h
    by_cases hex : fs.existsP (addExt (stems k) ext) = true
    · rw [if_pos hex] at h
      obtain ⟨hfree, j, hkj, hp, hmin⟩ := ih (k+1) p h
      refine ⟨hfree, j, by omega, hp, ?_⟩
      intro m hkm hmj
      by_cases hmk : m = k
      · subst hmk; exact hex
      · exact hmin m (by omega) hmj
    · rw [if_neg hex] at h
      injection h with h
      subst h
      exact ⟨Bool.eq_false_iff.mpr hex, k, Nat.le_refl k, rfl,
        fun m h1 h2 => absurd h1 (by omega)⟩

/-- Soundness of the `avoid_overwrite` counter loop: a returned path is the
first non-existing candidate, counting up from the starting counter. -/
theorem avoidLoopSound (fs : FS) (p : PathC) (isd : Bool) :
    ∀ fuel n₀ q, avoidLoop fs p isd fuel n₀ = some q →
      fs.existsP q = false ∧ ∃ n, n₀ ≤ n ∧
        q = withName p (candName isd (nameOf p) n) ∧
        ∀ m, n₀ ≤ m → m < n →
          fs.existsP (withName p (candName isd (nameOf p) m)) = true := by
  intro fuel
  induction fuel with
  | zero => intro n₀ q h; simp [avoidLoop] at h
  | succ f ih =>
    intro n₀ q h
    simp only [avoidLoop] at h
    by_cases hex : fs.existsP (withName p (candName isd (nameOf p) n₀)) = true
    · rw [if_pos hex] at h
      obtain ⟨hfree, n, hn, hq, hmin⟩ := ih (n₀+1) q h
      refine ⟨hfree, n, by omega, hq, ?_⟩
      intro m h1 h2
      by_cases hm : m = n₀
      · subst hm; exact hex
      · exact hmin m (by omega) h2
    · rw [if_neg hex] at h
      injection h with h
      subst h
      exact ⟨Bool.eq_false_iff.mpr hex, n₀, Nat.le_refl n₀, rfl,
        fun m h1 h2 => absurd h1 (by omega)⟩

/-- Claim C3: a path returned by `create_temp_path(ext)` is a stem from the
OS temp-stem stream with `ext` appended, it does not exist at the time of
return, and stems whose candidate collides with an existing path are
retried (every earlier candidate along the stream existed).  The function
only reads the filesystem value, so it creates nothing. -/
theorem create_temp_path_spec (fs : FS) (stems : Nat → PathC) (ext : String)
    (fuel k : Nat) (p : PathC)
    (h : create_temp_path fs stems ext fuel k = some p) :
    fs.existsP p = false ∧ ∃ j, k ≤ j ∧ p = addExt (stems j) ext ∧
      ∀ m, k ≤ m → m < j → fs.existsP (addExt (stems m) ext) = true :=
  ctpLoopSound fs stems ext fuel k p h

/-- Witness for C3: with `t0.txt` already existing the loop retries and
returns the non-colliding `t1.txt`. -/
theorem create_temp_path_spec_witness :
    (FS.mk [(["tmp", "t0.txt"], false)]).existsP ["tmp", "t1.txt"] = false ∧
    ∃ j, 0 ≤ j ∧ ["tmp", "t1.txt"]
        = addExt ((fun i => ["tmp", "t" ++ toString i]) j) ".txt" ∧
      ∀ m, 0 ≤ m → m < j →
        (FS.mk [(["tmp", "t0.txt"], false)]).existsP
          (addExt ((fun i => ["tmp", "t" ++ toString i]) m) ".txt") = true :=
  create_temp_path_spec (FS.mk [(["tmp", "t0.txt"], false)])
    (fun i => ["tmp", "t" ++ toString i]) ".txt" 3 0 ["tmp", "t1.txt"]
    (by decide)

/-- Claim C4: right after `TempDirPath.__new__` the directory exists and is
empty; `empty()` leaves it existing and empty; teardown with a succeeding
deletion removes it, and a failing deletion is swallowed (the state is
returned unchanged, no error is raised). -/
theorem tempDirPath_lifecycle (fs : FS) (stems : Nat → PathC) (fuel : Nat)
    (p : PathC) (fs' : FS) (g : FS)
    (h : tempDirNew fs stems fuel = some (p, fs')) (hwf : fs.wfb = true) :
    fs'.existsP p = true ∧ fs'.emptyDir p = true ∧
    (tempDirEmpty g p).existsP p = true ∧ (tempDirEmpty g p).emptyDir p = true ∧
    (tempDirDel true g p).existsP p = false ∧ tempDirDel false g p = g := by
  cases hc : create_temp_path fs stems "" fuel 0 with
  | none => rw [tempDirNew, hc] at h; cases h
  | some q =>
    rw [tempDirNew, hc] at h
    injection h with h
    have hp : p = q := (congrArg Prod.fst h).symm
    have hfs : fs' = fs.mkdir1 q := (congrArg Prod.snd h).symm
    rw [hp, hfs]
    obtain ⟨hfree, j, _, hq, _⟩ := ctpLoopSound fs stems "" fuel 0 q hc
    have hqne : q ≠ [] := hq ▸ addExt_ne_nil (stems j) ""
    have hnotdir : fs.isDirP q = false := isDirP_false_of_not_exists hfree
    have hunder := no_under_of_not_dir hwf hnotdir hqne
    refine ⟨?_, ?_, ?_, ?_, existsP_rmtree_self g q, rfl⟩
    · simp [FS.mkdir1, FS.existsP]
    · simp only [FS.emptyDir, Bool.and_eq_true]
      refine ⟨by simp [FS.mkdir1, FS.isDirP], ?_⟩
      refine List.all_eq_true.mpr ?_
      intro e he
      rcases List.mem_cons.mp he with rfl | hmem
      · simp [strictUnder_self_false]
      · simp [hunder e hmem]
    · simp [tempDirEmpty, FS.mkdir1, FS.existsP]
    · simp only [tempDirEmpty, FS.emptyDir, Bool.and_eq_true]
      refine ⟨by simp [FS.mkdir1, FS.isDirP], ?_⟩
      refine List.all_eq_true.mpr ?_
      intro e he
      rcases List.mem_cons.mp he with rfl | hmem
      · simp [strictUnder_self_false]
      · simp [rmtree_no_under g q e hmem]

/-- Witness for C4: a concrete run on a one-directory filesystem. -/
theorem tempDirPath_lifecycle_witness :
    (FS.mk [(["tmp", "d0"], true), (["tmp"], true)]).existsP ["tmp", "d0"]
        = true ∧
    (FS.mk [(["tmp", "d0"], true), (["tmp"], true)]).emptyDir ["tmp", "d0"]
        = true ∧
    (tempDirEmpty (FS.mk [(["x"], false)]) ["tmp", "d0"]).existsP ["tmp", "d0"]
        = true ∧
    (tempDirEmpty (FS.mk [(["x"], false)]) ["tmp", "d0"]).emptyDir ["tmp", "d0"]
        = true ∧
    (tempDirDel true (FS.mk [(["x"], false)]) ["tmp", "d0"]).existsP
        ["tmp", "d0"] = false ∧
    tempDirDel false (FS.mk [(["x"], false)]) ["tmp", "d0"]
        = FS.mk [(["x"], false)] :=
  tempDirPath_lifecycle (FS.mk [(["tmp"], true)]) (fun _ => ["tmp", "d0"]) 1
    ["tmp", "d0"] (FS.mk [(["tmp", "d0"], true), (["tmp"], true)])
    (FS.mk [(["x"], false)]) (by decide) (by decide)

/-- Claim C5: `mkdir_empty` always returns normally (the translation is a
total function; the `FileExistsError` on lines 34-36 is built but never
raised) and leaves the path an existing empty directory; the `exist_ok`
flag makes no difference to the result. -/
theorem mkdir_empty_spec (fs : FS) (p : PathC) (exist_ok : Bool)
    (hp : p ≠ []) (hwf : fs.wfb = true) :
    (mkdir_empty fs p exist_ok).isDirP p = true ∧
    (mkdir_empty fs p exist_ok).emptyDir p = true ∧
    mkdir_empty fs p true = mkdir_empty fs p false := by
  have main : ∀ fs2 : FS, fs2.existsP p = false →
      (∀ e ∈ fs2.entries, strictUnder p e.1 = false) →
      (fs2.mkdirP p).isDirP p = true ∧ (fs2.mkdirP p).emptyDir p = true :=
    fun fs2 h1 h2 => ⟨isDirP_mkdirP_self hp h1, emptyDir_mkdirP hp h1 h2⟩
  simp only [mkdir_empty]
  by_cases hex : fs.existsP p = true
  · rw [if_pos hex]
    by_cases hdir : fs.isDirP p = true
    · rw [if_pos hdir]
      exact ⟨(main _ (existsP_rmtree_self fs p) (rmtree_no_under fs p)).1,
        (main _ (existsP_rmtree_self fs p) (rmtree_no_under fs p)).2, trivial⟩
    · rw [if_neg hdir]
      have hdir' : fs.isDirP p = false := Bool.eq_false_iff.mpr hdir
      have hund : ∀ e ∈ (fs.unlink p).entries, strictUnder p e.1 = false :=
        fun e he =>
          no_under_of_not_dir hwf hdir' hp e (List.mem_filter.mp he).1
      exact ⟨(main _ (existsP_unlink_self fs p) hund).1,
        (main _ (existsP_unlink_self fs p) hund).2, trivial⟩
  · rw [if_neg hex]
    have hex' : fs.existsP p = false := Bool.eq_false_iff.mpr hex
    have hdir1 : (fs.mkdirP p).isDirP p = true := isDirP_mkdirP_self hp hex'
    rw [if_pos hdir1]
    exact ⟨(main _ (existsP_rmtree_self _ p) (rmtree_no_under _ p)).1,
      (main _ (existsP_rmtree_self _ p) (rmtree_no_under _ p)).2, trivial⟩

/-- Witness for C5: the path exists as a file, `exist_ok` is `false`, and
the call still succeeds and resets the path to an empty directory. -/
theorem mkdir_empty_spec_witness :
    (mkdir_empty (FS.mk [(["a"], false)]) ["a"] false).isDirP ["a"] = true ∧
    (mkdir_empty (FS.mk [(["a"], false)]) ["a"] false).emptyDir ["a"] = true ∧
    mkdir_empty (FS.mk [(["a"], false)]) ["a"] true
      = mkdir_empty (FS.mk [(["a"], false)]) ["a"] false :=
  mkdir_empty_spec (FS.mk [(["a"], false)]) ["a"] false (by decide) (by decide)

/-- Claim C7: `avoid_overwrite` returns a non-existing path unchanged;
for an existing path it returns the first free candidate `name (n)` (whole
name when `is_dir`) or `stem (n) + suffix` (file case), with the counter
starting at 1 — every earlier candidate existed.  The function only reads
the filesystem. -/
theorem avoid_overwrite_spec (fs : FS) (p : PathC) (isd : Bool) (fuel : Nat)
    (q : PathC) (h : avoid_overwrite fs p isd fuel = some q) :
    (fs.existsP p = false → q = p) ∧
    (fs.existsP p = true → fs.existsP q = false ∧ ∃ n, 1 ≤ n ∧
      q = withName p (candName isd (nameOf p) n) ∧
      ∀ m, 1 ≤ m → m < n →
        fs.existsP (withName p (candName isd (nameOf p) m)) = true) := by
  constructor
  · intro hex
    rw [avoid_overwrite, if_neg (by simp [hex])] at h
    injection h with h
    exact h.symm
  · intro hex
    rw [avoid_overwrite, if_pos hex] at h
    exact avoidLoopSound fs p isd fuel 1 q h

/-- Witness for C7: `report.txt` and `report (1).txt` both exist, so the
returned path is `report (2).txt` and the counter-1 candidate existed. -/
theorem avoid_overwrite_spec_witness :
    ((FS.mk [(["report.txt"], false), (["report (1).txt"], false)]).existsP
        ["report.txt"] = false → ["report (2).txt"] = ["report.txt"]) ∧
    ((FS.mk [(["report.txt"], false), (["report (1).txt"], false)]).existsP
        ["report.txt"] = true →
      (FS.mk [(["report.txt"], false), (["report (1).txt"], false)]).existsP
          ["report (2).txt"] = false ∧
      ∃ n, 1 ≤ n ∧ ["report (2).txt"]
          = withName ["report.txt"] (candName false (nameOf ["report.txt"]) n) ∧
        ∀ m, 1 ≤ m → m < n →
          (FS.mk [(["report.txt"], false), (["report (1).txt"], false)]).existsP
            (withName ["report.txt"]
              (candName false (nameOf ["report.txt"]) m)) = true) :=
  avoid_overwrite_spec
    (FS.mk [(["report.txt"], false), (["report (1).txt"], false)])
    ["report.txt"] false 4 ["report (2).txt"] (by decide)

/-! ## Helper lemmas about the console helpers and `Outputter` -/

theorem contains_intRange {start stop num : Int}
    (h : (intRange start stop).contains num = true) :
    start ≤ num ∧ num < stop := by
  have hm : num ∈ intRange start stop := List.elem_iff.mp h
  simp only [intRange, List.mem_map, List.mem_range] at hm
  obtain ⟨i, hi, rfl⟩ := hm
  simp only [Int.ofNat_eq_coe]
  omega

/-- `num_input` only returns integers inside `range(start, stop)`. -/
theorem num_input_range (start stop : Int) :
    ∀ inputs n, num_input start stop inputs = some n →
      start ≤ n ∧ n < stop := by
  intro inputs
  induction inputs with
  | nil => intro n h; simp [num_input] at h
  | cons c rest ih =>
    intro n h
    cases c with
    | none => exact ih n (by simpa [num_input] using h)
    | some num =>
      simp only [num_input] at h
      by_cases hc : (intRange start stop).contains num = true
      · rw [if_pos hc] at h
        injection h with h
        subst h
        exact contains_intRange hc
      · rw [if_neg hc] at h
        exact ih n h

/-- Claim C6: the choice helper returns an element of the list (the one at
the selected index), or a key of the dict (the one at the selected ordinal
position, not the associated value), and for any other `options` it fails
with the type error without consuming input. -/
theorem num_input2_spec {α κ β : Type} (inputs : List (Option Int))
    (l : List α) (d : List (κ × β)) (v : α) (k : κ) :
    (num_input2 inputs (Options.list l : Options α κ β)
        = Except.ok (some (Sum.inl v)) →
      ∃ n, num_input 0 (Int.ofNat l.length) inputs = some n ∧
        l.get? n.toNat = some v ∧ v ∈ l) ∧
    (num_input2 inputs (Options.dict d : Options α κ β)
        = Except.ok (some (Sum.inr k)) →
      ∃ n, num_input 0 (Int.ofNat d.length) inputs = some n ∧
        (d.map Prod.fst).get? n.toNat = some k ∧ k ∈ d.map Prod.fst) ∧
    num_input2 inputs (Options.other : Options α κ β)
      = Except.error (PyError.typeError typeErrMsg) := by
  refine ⟨?_, ?_, rfl⟩
  · intro hv
    simp only [num_input2, Except.ok.injEq] at hv
    cases hn : num_input 0 (Int.ofNat l.length) inputs with
    | none => rw [hn] at hv; simp at hv
    | some n =>
      rw [hn] at hv
      simp only [Option.some_bind] at hv
      cases hg : l.get? n.toNat with
      | none => rw [hg] at hv; simp at hv
      | some w =>
        rw [hg] at hv
        simp only [Option.map_some', Option.some.injEq, Sum.inl.injEq] at hv
        subst hv
        exact ⟨n, rfl, hg, List.get?_mem hg⟩
  · intro hk
    simp only [num_input2, Except.ok.injEq] at hk
    cases hn : num_input 0 (Int.ofNat d.length) inputs with
    | none => rw [hn] at hk; simp at hk
    | some n =>
      rw [hn] at hk
      simp only [Option.some_bind] at hk
      cases hg : (d.map Prod.fst).get? n.toNat with
      | none => rw [hg] at hk; simp at hk
      | some w =>
        rw [hg] at hk
        simp only [Option.map_some', Option.some.injEq, Sum.inr.injEq] at hk
        subst hk
        exact ⟨n, rfl, hg, List.get?_mem hg⟩

/-- Witness for C6: the unparseable line and the out-of-range 5 re-prompt,
then index 1 selects the list element 20 and the dict key "b"; a non-list
non-dict argument errors. -/
theorem num_input2_spec_witness :
    (∃ n, num_input 0 (Int.ofNat ([10, 20] : List Nat).length)
        [none, some 5, some 1] = some n ∧
      ([10, 20] : List Nat).get? n.toNat = some 20 ∧
      20 ∈ ([10, 20] : List Nat)) ∧
    (∃ n, num_input 0
        (Int.ofNat ([("a", 7), ("b", 8)] : List (String × Nat)).length)
        [none, some 5, some 1] = some n ∧
      (([("a", 7), ("b", 8)] : List (String × Nat)).map Prod.fst).get? n.toNat
        = some "b" ∧
      "b" ∈ ([("a", 7), ("b", 8)] : List (String × Nat)).map Prod.fst) ∧
    num_input2 [none, some 5, some 1] (Options.other : Options Nat String Nat)
      = Except.error (PyError.typeError typeErrMsg) := by
  have h := num_input2_spec [none, some 5, some 1] ([10, 20] : List Nat)
    ([("a", 7), ("b", 8)] : List (String × Nat)) 20 "b"
  exact ⟨h.1 rfl, h.2.1 rfl, h.2.2⟩

theorem read_write (fs : TextFS) (p c : String) :
    (fs.write p c).read? p = some c := by
  simp only [TextFS.read?, TextFS.write]
  rw [List.find?_cons_of_pos _ (by simp)]
  rfl

/-- Content after a sequence of `output` calls: the starting content with
the messages appended in call order. -/
theorem runOutputs_content (p : String) :
    ∀ (ms : List String) (g : TextFS) (s : String), g.read? p = some s →
      (runOutputs ⟨p⟩ g ms).read? p = some (s ++ strConcat ms) := by
  intro ms
  induction ms with
  | nil =>
    intro g s h
    simpa [runOutputs, strConcat, String.append_empty] using h
  | cons m ms ih =>
    intro g s h
    have hout : (Outputter.output ⟨p⟩ g m) = g.write p (s ++ m) := by
      simp [Outputter.output, h]
    have hw : ((⟨p⟩ : Outputter).output g m).read? p = some (s ++ m) := by
      rw [hout]; exact read_write g p (s ++ m)
    have hrec := ih _ _ hw
    simpa [runOutputs, strConcat, String.append_assoc] using hrec

/-- Claim C9: right after construction the destination file exists and is
empty, and after any sequence of `output` calls its content is the
concatenation, in call order, of the strings passed since construction. -/
theorem outputter_spec (fs : TextFS) (p : String) (msgs : List String) :
    ((outputterInit fs p).2).read? p = some "" ∧
    (runOutputs (outputterInit fs p).1 (outputterInit fs p).2 msgs).read? p
      = some (strConcat msgs) := by
  have h0 : ((outputterInit fs p).2).read? p = some "" := read_write fs p ""
  refine ⟨h0, ?_⟩
  have hrun := runOutputs_content p msgs _ _ h0
  simpa [outputterInit, String.empty_append] using hrun

/-- Claim C10: the yes/no prompt returns true exactly on the lowercased
lines y/ye/yes, false exactly on n/no, and any other line — the empty line
included, despite the `([y]/N)` hint — re-prompts instead of returning. -/
theorem yes_no_input_spec (line : String) (ls : List String) :
    (yes_no_step line = some true ↔
      (lowerStr line = "y" ∨ lowerStr line = "ye" ∨ lowerStr line = "yes")) ∧
    (yes_no_step line = some false ↔
      (lowerStr line = "n" ∨ lowerStr line = "no")) ∧
    (yes_no_step line = none → yes_no_input (line :: ls) = yes_no_input ls) ∧
    yes_no_step "" = none := by
  refine ⟨?_, ?_, fun h => by simp [yes_no_input, h], by decide⟩
  · simp only [yes_no_step]
    split_ifs with h1 h2
    · simp [h1]
    · constructor
      · intro hcontra; simp at hcontra
      · intro hy; exact absurd hy h1
    · constructor
      · intro hcontra; simp at hcontra
      · intro hy; exact absurd hy h1
  · simp only [yes_no_step]
    split_ifs with h1 h2
    · constructor
      · intro hcontra; simp at hcontra
      · intro hn
        rcases h1 with h | h | h <;> rcases hn with hn | hn <;>
          rw [h] at hn <;> exact absurd hn (by decide)
    · simp [h2]
    · simp [h2]

/-- Witness for C10: `Maybe` is neither answer, so the loop re-prompts and
the following `YES` line answers true. -/
theorem yes_no_input_spec_witness :
    yes_no_step "Maybe" = none ∧
    yes_no_input ["Maybe", "YES"] = yes_no_input ["YES"] ∧
    yes_no_input ["YES"] = some true := by
  have h := yes_no_input_spec "Maybe" ["YES"]
  exact ⟨by decide, h.2.2.1 (by decide), by decide⟩

end Mylib
